import Mathlib

/-!
Shallow embedding of the reconciliation core of `gh-jira-issue-sync`.

The embedding covers:
* the comment-header correlator (`jCommentRegex`, `jCommentIDRegex`,
  `CreateComment`/`UpdateComment` body formatting and truncation) from
  `internal/jira/comment` and `internal/jira/jira.go`;
* the comment reconciler `Compare`/`UpdateComment` from
  `internal/jira/comment`;
* the issue differ `DidIssueChange` and the issue reconciler `Compare`
  from `internal/jira/issue/issue.go`.

Strings of the comment-correlation world are modelled as `List Char`
(Go strings; the sources are ASCII so byte- vs rune-indexing agree).
The two Go regexes are alternation-free anchored patterns; they are
embedded as a sequence of pattern atoms together with a backtracking
matcher implementing Go's (leftmost-first, Perl-style) semantics:
greedy atoms try the longest candidate first, lazy atoms the shortest,
`.` never matches a newline, and the whole pattern is anchored at the
start (both regexes begin with `^`; anchoring at the end models `$`).
-/

namespace Sync

abbrev Str := List Char

/-- `.` in the Go regexes: any character except newline. -/
def notNL (c : Char) : Bool := c != '\n'

/-- String-literal characters. -/
def strL (s : String) : Str := s.toList

/-- Try `f m, f (m-1), …, f 0` in that order; first `some` wins.
Used for greedy atoms (longest candidate first). -/
def tryFrom (f : Nat → Option α) : Nat → Option α
  | 0 => f 0
  | k + 1 =>
    match f (k + 1) with
    | some r => some r
    | none => tryFrom f k

/-- Try `f 0, f 1, …, f m` in that order; first `some` wins.
Used for lazy atoms (shortest candidate first). -/
def tryUpto (f : Nat → Option α) : Nat → Option α
  | 0 => f 0
  | k + 1 =>
    match tryUpto f k with
    | some r => some r
    | none => f (k + 1)

/-- Atoms of the two comment-correlation regexes: a literal run,
a capturing `(\d+)`, a capturing `(.+)`, and a non-capturing `.*?`. -/
inductive Pat
  | lit (l : Str)
  | digitsCap
  | dotPlusCap
  | dotStarLazy

/-- Backtracking matcher for an alternation-free atom sequence, anchored
at the start of `s`.  `anch = true` also anchors the end (`$`).
Returns the list of captured groups on success.  Greedy atoms enumerate
candidate lengths longest-first, the lazy atom shortest-first, exactly as
Go's leftmost-first submatch semantics prescribe for these patterns. -/
def mtch (anch : Bool) : List Pat → Str → Option (List Str)
  | [], s => if anch && !s.isEmpty then none else some []
  | .lit l :: ps, s =>
    if l.isPrefixOf s then mtch anch ps (s.drop l.length) else none
  | .digitsCap :: ps, s =>
    tryFrom
      (fun k =>
        if k = 0 then none
        else (mtch anch ps (s.drop k)).map (s.take k :: ·))
      (s.takeWhile Char.isDigit).length
  | .dotPlusCap :: ps, s =>
    tryFrom
      (fun k =>
        if k = 0 then none
        else (mtch anch ps (s.drop k)).map (s.take k :: ·))
      (s.takeWhile notNL).length
  | .dotStarLazy :: ps, s =>
    tryUpto (fun k => mtch anch ps (s.drop k)) (s.takeWhile notNL).length

/-- `jCommentRegex`:
`^Comment \[\(ID (\d+)\)\|.*?] from GitHub user \[(.+)\|.*?] \((.+)\) at (.+):\n\n(.+)$`. -/
def jCommentPats : List Pat :=
  [.lit (strL "Comment [(ID "), .digitsCap, .lit (strL ")|"), .dotStarLazy,
   .lit (strL "] from GitHub user ["), .dotPlusCap, .lit (strL "|"), .dotStarLazy,
   .lit (strL "] ("), .dotPlusCap, .lit (strL ") at "), .dotPlusCap,
   .lit (strL ":\n\n"), .dotPlusCap]

/-- `jCommentIDRegex`: `^Comment \[\(ID (\d+)\)\|` (no end anchor). -/
def jCommentIDPats : List Pat :=
  [.lit (strL "Comment [(ID "), .digitsCap, .lit (strL ")|")]

/-- `jCommentRegex.FindStringSubmatch`, groups 1–5
(ID digits, login, display name, timestamp, original body);
`none` models the `nil` result on no match. -/
def extractFields (s : Str) : Option (Str × Str × Str × Str × Str) :=
  match mtch true jCommentPats s with
  | some [a, b, c, d, e] => some (a, b, c, d, e)
  | _ => none

/-- `jCommentIDRegex` matching plus group 1 (the ID digit string);
`none` models `MatchString` returning false. -/
def extractID (s : Str) : Option Str :=
  match mtch false jCommentIDPats s with
  | some [d] => some d
  | _ => none

/-- Decimal digit character, `n` taken mod-10-like by saturation
(only applied to values below 10). -/
def digitChar (n : Nat) : Char :=
  if n = 0 then '0' else if n = 1 then '1' else if n = 2 then '2'
  else if n = 3 then '3' else if n = 4 then '4' else if n = 5 then '5'
  else if n = 6 then '6' else if n = 7 then '7' else if n = 8 then '8'
  else '9'

/-- Decimal rendering of a natural number (`%d` in the Go `fmt.Sprintf`
calls), fuel-indexed so that it reduces in the kernel. -/
def natToDigitsAux : Nat → Nat → Str
  | 0, _ => []
  | fuel + 1, n =>
    if n < 10 then [digitChar n]
    else natToDigitsAux fuel (n / 10) ++ [digitChar (n % 10)]

/-- Decimal rendering of a natural number. -/
def natToDigits (n : Nat) : Str := natToDigitsAux (n + 1) n

/-- The synthetic Jira comment body built by `CreateComment` /
`UpdateComment` in `internal/jira/jira.go` (before truncation):
`Comment [(ID %d)|%s] from GitHub user [%s|%s]` + optional ` (%s)` when
the user's display name is non-empty + ` at %s:\n\n%s`. -/
def formatCommentBody (id : Nat) (commentURL login userURL userName time body : Str) :
    Str :=
  strL "Comment [(ID " ++ natToDigits id ++ strL ")|" ++ commentURL ++
    strL "] from GitHub user [" ++ login ++ strL "|" ++ userURL ++ strL "]" ++
    (if userName = [] then [] else strL " (" ++ userName ++ strL ")") ++
    strL " at " ++ time ++ strL ":\n\n" ++ body

/-- `maxBodyLength = 1 << 15` from `internal/jira/jira.go`. -/
def maxBodyLength : Nat := 1 <<< 15

/-- The comment body actually sent: formatted, then truncated to
`maxBodyLength` characters when longer (`body = body[:maxBodyLength]`). -/
def createCommentBody (id : Nat) (commentURL login userURL userName time body : Str) :
    Str :=
  let b := formatCommentBody id commentURL login userURL userName time body
  if b.length > maxBodyLength then b.take maxBodyLength else b

/-- Outcome of `comment.UpdateComment` (`internal/jira/comment`):
`panic` models the out-of-bounds `fields[5]` access on a `nil`
`FindStringSubmatch` result, `noop` the early `return nil` when the
extracted body equals the GitHub body, `wrote` the call into
`jClient.UpdateComment`. -/
inductive UpdateOutcome
  | panic
  | noop
  | wrote
deriving DecidableEq

/-- `comment.UpdateComment`'s decision logic: decompose the Jira body
with `jCommentRegex` and compare capture group 5 with the GitHub body. -/
def updateComment (ghBody : Str) (jBody : Str) : UpdateOutcome :=
  match extractFields jBody with
  | none => .panic
  | some (_, _, _, _, realBody) => if realBody = ghBody then .noop else .wrote

/-- A GitHub issue comment, as used by the comment reconciler. -/
structure GhComment where
  id : Nat
  body : Str
deriving DecidableEq

/-- A Jira comment: its Jira-side ID and its body text. -/
structure JComment where
  cid : String
  body : Str
deriving DecidableEq

/-- Value of a digit string. -/
def digitsToNat (ds : Str) : Nat :=
  ds.foldl (fun a c => 10 * a + (c.toNat - 48)) 0

/-- Largest value of Go's 64-bit `int`. -/
def int64Max : Nat := 2 ^ 63 - 1

/-- `strconv.Atoi` restricted to the digit strings produced by the
regex captures: all-digit and in `int64` range, else an error. -/
def goAtoi (ds : Str) : Option Nat :=
  if ds ≠ [] ∧ ds.all Char.isDigit then
    if digitsToNat ds ≤ int64Max then some (digitsToNat ds) else none
  else none

/-- Result of `comment.Compare`. -/
structure CommentCompareResult where
  shouldCreate : List GhComment
  shouldUpdate : List (GhComment × JComment)
deriving DecidableEq

deriving instance DecidableEq for Except

/-- The inner loop of `comment.Compare` for one GitHub comment: skip
Jira comments failing the `jCommentIDRegex` check, parse the captured
ID (a conversion failure is returned as an error), stop on the first
Jira comment whose ID equals the GitHub comment's ID. -/
def scanJComments (ghID : Nat) : List JComment → Except Unit (Option JComment)
  | [] => .ok none
  | j :: rest =>
    match extractID j.body with
    | none => scanJComments ghID rest
    | some ds =>
      match goAtoi ds with
      | none => .error ()
      | some n => if ghID = n then .ok (some j) else scanJComments ghID rest

/-- `comment.Compare` (`internal/jira/comment`): partition GitHub
comments into create/update against the Jira comment list; a malformed
captured ID aborts with an error. -/
def commentsCompare : List GhComment → List JComment → Except Unit CommentCompareResult
  | [], _ => .ok ⟨[], []⟩
  | gh :: rest, js =>
    match scanJComments gh.id js with
    | .error e => .error e
    | .ok none =>
      match commentsCompare rest js with
      | .ok r => .ok ⟨gh :: r.shouldCreate, r.shouldUpdate⟩
      | .error e => .error e
    | .ok (some j) =>
      match commentsCompare rest js with
      | .ok r => .ok ⟨r.shouldCreate, (gh, j) :: r.shouldUpdate⟩
      | .error e => .error e

/-- A custom-field value decoded from JSON into Go's `interface{}`:
absent, a `float64` number (integral GitHub IDs are modelled as `Int`),
a string, or a string slice. -/
inductive FieldValue
  | absent
  | num (n : Int)
  | str (s : String)
  | strList (l : List String)
deriving DecidableEq

/-- A GitHub issue as read by the issue reconciler. -/
structure GhIssue where
  id : Int
  number : Int
  title : String
  body : String
  state : String
  login : String
  labels : List String
deriving DecidableEq

/-- A Jira issue: well-known fields plus the tracked custom fields
(`cfg.GetFieldKey` resolves distinct keys per logical field, modelled
as one record field each). -/
structure JiraIssue where
  key : String
  summary : String
  description : String
  ghid : FieldValue
  status : FieldValue
  reporter : FieldValue
  labelsF : FieldValue
deriving DecidableEq

/-- `tcontainer.MarshalMap.String`: succeeds only on a string value. -/
def unknownsString : FieldValue → Option String
  | .str s => some s
  | _ => none

/-- The `jiraLabels, _ := labelsField.([]string)` type assertion with
ignored failure: non-slices (including an absent field) become `nil`. -/
def jiraLabelsOf : FieldValue → List String
  | .strList l => l
  | _ => []

/-- `githubLabelsToStrSlice`'s per-label normalization: every space
becomes a hyphen. -/
def hyphenNormalize (s : String) : String :=
  String.mk (s.data.map fun c => if c = ' ' then '-' else c)

/-- The inner label loop of `DidIssueChange`, kept structurally
faithful: `n` is `len(jiraLabels)`, `i` the running index, `found` the
flag; the `else` branch (which is what sets `anyDifferent`) is taken
exactly when `i < n && !found` fails. -/
def labelScan (n : Nat) (label : String) : Nat → Bool → List String → Bool
  | _, _, [] => false
  | i, found, jl :: rest =>
    if i < n ∧ found = false then
      if label = jl then false else labelScan n label (i + 1) found rest
    else true

/-- The outer label loop of `DidIssueChange`: each GitHub label runs
`labelScan` only while `anyDifferent` is still false. -/
def labelsPhase (acc : Bool) (ghLabels jiraLabels : List String) : Bool :=
  ghLabels.foldl
    (fun a label =>
      if a then a else labelScan jiraLabels.length label 0 false jiraLabels)
    acc

/-- `DidIssueChange` (`internal/jira/issue/issue.go`): OR together the
title, body, status-field and reporter-field comparisons, then run the
label loops when the GitHub issue has labels. -/
def didIssueChange (gh : GhIssue) (j : JiraIssue) : Bool :=
  let d1 := gh.title != j.summary
  let d2 := d1 || (gh.body != j.description)
  let d3 := d2 ||
    (match unknownsString j.status with
     | some f => gh.state != f
     | none => true)
  let d4 := d3 ||
    (match unknownsString j.reporter with
     | some f => gh.login != f
     | none => true)
  if gh.labels.length > 0 then
    labelsPhase d4 (gh.labels.map hyphenNormalize) (jiraLabelsOf j.labelsF)
  else d4

/-- The inner loop of issue `Compare`: scan the Jira issues for one
whose GitHub-ID custom field is a `float64` equal to the GitHub ID; a
value that is absent or not a `float64` `break`s the scan. -/
def scanTargets (ghID : Int) : List JiraIssue → Option JiraIssue
  | [] => none
  | j :: rest =>
    match j.ghid with
    | .num v => if v = ghID then some j else scanTargets ghID rest
    | _ => none

/-- Which path issue `Compare` drives for one GitHub issue. -/
inductive Action
  | create (gh : GhIssue)
  | update (gh : GhIssue) (j : JiraIssue)
deriving DecidableEq

/-- Per-source-issue classification of issue `Compare`: `UpdateIssue`
on the first float64-ID match, `CreateIssue` when the scan ends with
`found == false`. -/
def classifyIssue (js : List JiraIssue) (gh : GhIssue) : Action :=
  match scanTargets gh.id js with
  | some j => .update gh j
  | none => .create gh

/-- The classification issue `Compare` performs over the whole GitHub
issue list, in input order. -/
def issueClassify (ghs : List GhIssue) (js : List JiraIssue) : List Action :=
  ghs.map (classifyIssue js)

/-- External outcomes for the write/fetch calls issue `Compare` makes
per issue: whether `UpdateIssue` (including its re-fetch and comment
pass) or `CreateIssue` fails for a given input. -/
structure IssueSyncOracle where
  updateFails : GhIssue → JiraIssue → Bool
  createFails : GhIssue → Bool

/-- What happened to one source issue during `Compare`: which path ran
and whether its error was logged (`log.Errorf`), never propagated. -/
inductive ProcessedResult
  | updated (gh : GhIssue) (j : JiraIssue) (errLogged : Bool)
  | created (gh : GhIssue) (errLogged : Bool)
deriving DecidableEq

/-- One iteration of `Compare`'s outer loop. -/
def processOne (or : IssueSyncOracle) (js : List JiraIssue) (gh : GhIssue) :
    ProcessedResult :=
  match scanTargets gh.id js with
  | some j => .updated gh j (or.updateFails gh j)
  | none => .created gh (or.createFails gh)

/-- Issue `Compare` (`internal/jira/issue/issue.go`): propagate listing
failures, return early on an empty GitHub list, then process every
GitHub issue, logging (not propagating) per-issue failures. -/
def issueCompare (or : IssueSyncOracle)
    (listGh : Except Unit (List GhIssue))
    (listJira : List Int → Except Unit (List JiraIssue)) :
    Except Unit (List ProcessedResult) :=
  match listGh with
  | .error e => .error e
  | .ok ghs =>
    if ghs.isEmpty then .ok []
    else
      match listJira (ghs.map (·.id)) with
      | .error e => .error e
      | .ok js => .ok (ghs.map (processOne or js))

/-- Decimal-digit-string parse, used only to state the spec's notion of
string-encoded numeric equality. -/
def parseDecStr (s : String) : Option Nat :=
  if s.data ≠ [] ∧ s.data.all Char.isDigit then some (digitsToNat s.data) else none

/-- Modelled from the spec: the spec's "GitHub-ID custom field
numerically equals the source issue's ID (tolerant of the stored value
being encoded as a float or a string)" — a number matches numerically,
a string matches when it reads as the same number. -/
def specGitHubIDNumEq (v : FieldValue) (id : Int) : Bool :=
  match v with
  | .num n => n == id
  | .str s =>
    match parseDecStr s with
    | some n => (n : Int) == id
    | none => false
  | _ => false

/-! ### Candidate-enumeration lemmas -/

theorem tryFrom_eq_of {α : Type} (f : Nat → Option α) (r : α) (k₀ : Nat)
    (hsucc : f k₀ = some r) :
    ∀ m, k₀ ≤ m → (∀ j, k₀ < j → j ≤ m → f j = none) → tryFrom f m = some r := by
  intro m
  induction m with
  | zero =>
    intro hk _
    have h0 : k₀ = 0 := Nat.le_zero.mp hk
    subst h0
    simpa [tryFrom] using hsucc
  | succ m ih =>
    intro hk hnone
    by_cases h : k₀ = m + 1
    · subst h
      simp [tryFrom, hsucc]
    · have h1 : f (m + 1) = none := hnone _ (by omega) (Nat.le_refl _)
      have h2 := ih (by omega) (fun j hj hjm => hnone j hj (by omega))
      simp [tryFrom, h1, h2]

theorem tryUpto_none {α : Type} (f : Nat → Option α) :
    ∀ m, (∀ j, j ≤ m → f j = none) → tryUpto f m = none := by
  intro m
  induction m with
  | zero => intro h; simpa [tryUpto] using h 0 (Nat.le_refl _)
  | succ m ih =>
    intro h
    have h1 := ih fun j hj => h j (by omega)
    simp [tryUpto, h1, h (m + 1) (Nat.le_refl _)]

theorem tryUpto_eq_of {α : Type} (f : Nat → Option α) (r : α) (k₀ : Nat)
    (hsucc : f k₀ = some r) (hnone : ∀ j, j < k₀ → f j = none) :
    ∀ m, k₀ ≤ m → tryUpto f m = some r := by
  intro m
  induction m with
  | zero =>
    intro hk
    have h0 : k₀ = 0 := Nat.le_zero.mp hk
    subst h0
    simpa [tryUpto] using hsucc
  | succ m ih =>
    intro hk
    by_cases h : k₀ ≤ m
    · simp [tryUpto, ih h]
    · have hk1 : k₀ = m + 1 := by omega
      have hall : tryUpto f m = none := tryUpto_none f m fun j hj => hnone j (by omega)
      subst hk1
      simp [tryUpto, hall, hsucc]

/-! ### takeWhile / indexing lemmas -/

theorem takeWhile_append_all {p : Char → Bool} :
    ∀ {a : Str} (b : Str), a.all p = true →
      (a ++ b).takeWhile p = a ++ b.takeWhile p := by
  intro a
  induction a with
  | nil => simp
  | cons c a ih =>
    intro b h
    simp only [List.all_cons, Bool.and_eq_true] at h
    simp [List.takeWhile_cons, h.1, ih b h.2]

theorem takeWhile_all_self {p : Char → Bool} {a : Str} (h : a.all p = true) :
    a.takeWhile p = a := by
  have := takeWhile_append_all (a := a) [] h
  simpa using this

theorem length_takeWhile_drop {p : Char → Bool} :
    ∀ (s : Str) (k : Nat), k ≤ (s.takeWhile p).length →
      ((s.drop k).takeWhile p).length = (s.takeWhile p).length - k := by
  intro s
  induction s with
  | nil => intro k hk; simp_all
  | cons c s ih =>
    intro k hk
    cases k with
    | zero => simp
    | succ k =>
      by_cases hc : p c
      · simp only [List.takeWhile_cons, hc, if_true, List.length_cons] at hk ⊢
        have := ih k (by omega)
        simp only [List.drop_succ_cons]
        omega
      · simp [List.takeWhile_cons, hc] at hk

theorem getElem?_takeWhile {p : Char → Bool} :
    ∀ (s : Str) (j : Nat), j < (s.takeWhile p).length →
      s[j]? = (s.takeWhile p)[j]? := by
  intro s
  induction s with
  | nil => intro j h; simp at h
  | cons c s ih =>
    intro j h
    by_cases hc : p c
    · simp only [List.takeWhile_cons, hc, if_true] at h ⊢
      cases j with
      | zero => simp
      | succ j =>
        simp only [List.getElem?_cons_succ]
        exact ih j (by simpa using h)
    · simp [List.takeWhile_cons, hc] at h

theorem getElem?_takeWhile_boundary {p : Char → Bool} :
    ∀ (s : Str),
      s[(s.takeWhile p).length]? = none ∨
        ∃ d, s[(s.takeWhile p).length]? = some d ∧ p d = false := by
  intro s
  induction s with
  | nil => left; simp
  | cons c s ih =>
    by_cases hc : p c
    · simpa [List.takeWhile_cons, hc] using ih
    · right
      refine ⟨c, ?_, by simpa using hc⟩
      simp [List.takeWhile_cons, hc]

theorem getElem?_zero_of_isPrefixOf {c : Char} {l v : Str}
    (h : (c :: l).isPrefixOf v = true) : v[0]? = some c := by
  cases v with
  | nil => simp [List.isPrefixOf] at h
  | cons d vs =>
    simp only [List.isPrefixOf, Bool.and_eq_true, beq_iff_eq] at h
    simp [h.1]

/-! ### Occurrence exclusion lemmas -/

theorem no_occ_le_boundary {c : Char} (l u : Str) (hc : c ≠ '\n')
    (hmem : c ∉ u.takeWhile notNL) :
    ∀ j, j ≤ (u.takeWhile notNL).length →
      (c :: l).isPrefixOf (u.drop j) = false := by
  intro j hj
  cases hb : (c :: l).isPrefixOf (u.drop j) with
  | false => rfl
  | true =>
    exfalso
    have h0 : (u.drop j)[0]? = some c := getElem?_zero_of_isPrefixOf hb
    rw [List.getElem?_drop] at h0
    simp only [Nat.add_zero] at h0
    rcases Nat.lt_or_eq_of_le hj with hlt | heq
    · rw [getElem?_takeWhile u j hlt] at h0
      exact hmem (List.getElem?_mem h0)
    · rw [heq] at h0
      rcases getElem?_takeWhile_boundary (p := notNL) u with hnone | ⟨d, hd, hpd⟩
      · rw [hnone] at h0; exact Option.noConfusion h0
      · rw [hd] at h0
        injection h0 with h0
        subst h0
        simp [notNL] at hpd
        exact hc hpd

theorem no_occ_before {c : Char} (l : Str) {pre : Str} (rest : Str)
    (hmem : c ∉ pre) :
    ∀ j, j < pre.length → (c :: l).isPrefixOf ((pre ++ rest).drop j) = false := by
  intro j hj
  cases hb : (c :: l).isPrefixOf ((pre ++ rest).drop j) with
  | false => rfl
  | true =>
    exfalso
    have h0 : (pre ++ rest)[j]? = some c := by
      have := getElem?_zero_of_isPrefixOf hb
      rw [List.getElem?_drop] at this
      simpa using this
    rw [List.getElem?_append, if_pos hj] at h0
    exact hmem (List.getElem?_mem h0)

theorem greedy_no_occ {c : Char} (ltail : Str) {pre : Str} (suf : Str)
    (hpre : pre.all notNL = true) (hc : c ≠ '\n')
    (hmem : c ∉ ((ltail ++ suf).takeWhile notNL)) :
    ∀ j, pre.length < j →
      j ≤ ((pre ++ (c :: ltail) ++ suf).takeWhile notNL).length →
      (c :: ltail).isPrefixOf ((pre ++ (c :: ltail) ++ suf).drop j) = false := by
  intro j hj hjm
  have hs : pre ++ (c :: ltail) ++ suf = (pre ++ [c]) ++ (ltail ++ suf) := by
    simp
  have hall : (pre ++ [c]).all notNL = true := by
    simp only [List.all_append, Bool.and_eq_true]
    exact ⟨hpre, by simp [notNL, hc]⟩
  have htw : (pre ++ (c :: ltail) ++ suf).takeWhile notNL =
      (pre ++ [c]) ++ ((ltail ++ suf).takeWhile notNL) := by
    rw [hs]
    exact takeWhile_append_all _ hall
  have hk : pre.length + 1 ≤ ((pre ++ (c :: ltail) ++ suf).takeWhile notNL).length := by
    rw [htw]; simp
  have hdrop : (pre ++ (c :: ltail) ++ suf).drop j =
      (ltail ++ suf).drop (j - (pre.length + 1)) := by
    rw [hs]
    have hlen : (pre ++ [c]).length = pre.length + 1 := by simp
    have hj' : j = (pre ++ [c]).length + (j - (pre.length + 1)) := by
      rw [hlen]; omega
    conv_lhs => rw [hj']
    rw [List.drop_append]
  rw [hdrop]
  apply no_occ_le_boundary ltail (ltail ++ suf) hc hmem
  have hlen := length_takeWhile_drop (p := notNL) (pre ++ (c :: ltail) ++ suf)
    (pre.length + 1) hk
  have hs2 : (pre ++ (c :: ltail) ++ suf).drop (pre.length + 1) = ltail ++ suf := by
    rw [hs]
    have : pre.length + 1 = (pre ++ [c]).length := by simp
    rw [this, List.drop_left]
  rw [hs2] at hlen
  omega

/-! ### Matcher step lemmas

Each lemma resolves one pattern atom deterministically, given that the
literal that follows it matches at exactly the intended split (no
feasible earlier split for the lazy atom, no feasible later split for
the greedy atoms). -/

theorem mtch_nil_unfold (anch : Bool) (s : Str) :
    mtch anch [] s = if anch && !s.isEmpty then none else some [] := rfl

theorem mtch_lit_unfold (anch : Bool) (ps : List Pat) (l s : Str) :
    mtch anch (.lit l :: ps) s =
      if l.isPrefixOf s then mtch anch ps (s.drop l.length) else none := rfl

theorem mtch_digits_unfold (anch : Bool) (ps : List Pat) (s : Str) :
    mtch anch (.digitsCap :: ps) s =
      tryFrom (fun k => if k = 0 then none else (mtch anch ps (s.drop k)).map (s.take k :: ·))
        (s.takeWhile Char.isDigit).length := rfl

theorem mtch_plus_unfold (anch : Bool) (ps : List Pat) (s : Str) :
    mtch anch (.dotPlusCap :: ps) s =
      tryFrom (fun k => if k = 0 then none else (mtch anch ps (s.drop k)).map (s.take k :: ·))
        (s.takeWhile notNL).length := rfl

theorem mtch_lazy_unfold (anch : Bool) (ps : List Pat) (s : Str) :
    mtch anch (.dotStarLazy :: ps) s =
      tryUpto (fun k => mtch anch ps (s.drop k)) (s.takeWhile notNL).length := rfl

theorem mtch_lit_step (anch : Bool) (ps : List Pat) (l s : Str) :
    mtch anch (.lit l :: ps) (l ++ s) = mtch anch ps s := by
  have h1 : l.isPrefixOf (l ++ s) = true :=
    List.isPrefixOf_iff_prefix.mpr (List.prefix_append l s)
  rw [mtch_lit_unfold, if_pos h1, List.drop_left]

theorem mtch_lit_none (anch : Bool) (ps : List Pat) {l s : Str}
    (h : l.isPrefixOf s = false) :
    mtch anch (.lit l :: ps) s = none := by
  rw [mtch_lit_unfold, if_neg]
  simp [h]

theorem mtch_digits_step (anch : Bool) (ps : List Pat) {d : Str} (rest : Str)
    (caps : List Str) (hne : d ≠ []) (hd : d.all Char.isDigit = true)
    (hrest : rest.takeWhile Char.isDigit = [])
    (hcont : mtch anch ps rest = some caps) :
    mtch anch (.digitsCap :: ps) (d ++ rest) = some (d :: caps) := by
  have htw : (d ++ rest).takeWhile Char.isDigit = d := by
    rw [takeWhile_append_all rest hd, hrest, List.append_nil]
  rw [mtch_digits_unfold, htw]
  apply tryFrom_eq_of _ _ d.length
  · have hlen : d.length ≠ 0 := by
      intro h; exact hne (List.length_eq_zero.mp h)
    simp only [hlen, if_false, List.drop_left, List.take_left, hcont, Option.map_some']
  · exact Nat.le_refl _
  · intro j hj hjm; omega

theorem mtch_greedy_step (anch : Bool) (ps : List Pat) (l : Str) {pre : Str}
    (suf : Str) (caps : List Str) (hne : pre ≠ []) (hpre : pre.all notNL = true)
    (hcont : mtch anch ps suf = some caps)
    (hno : ∀ j, pre.length < j →
      j ≤ ((pre ++ l ++ suf).takeWhile notNL).length →
      l.isPrefixOf ((pre ++ l ++ suf).drop j) = false) :
    mtch anch (.dotPlusCap :: .lit l :: ps) (pre ++ l ++ suf) = some (pre :: caps) := by
  have hassoc : pre ++ l ++ suf = pre ++ (l ++ suf) := by simp
  rw [mtch_plus_unfold]
  apply tryFrom_eq_of _ _ pre.length
  · have hlen : pre.length ≠ 0 := by
      intro h; exact hne (List.length_eq_zero.mp h)
    have hdrop : (pre ++ l ++ suf).drop pre.length = l ++ suf := by
      rw [hassoc, List.drop_left]
    have htake : (pre ++ l ++ suf).take pre.length = pre := by
      rw [hassoc, List.take_left]
    simp only [hlen, if_false, hdrop, htake, mtch_lit_step, hcont, Option.map_some']
  · rw [hassoc, takeWhile_append_all _ hpre]
    simp
  · intro j hj hjm
    have hb := hno j hj hjm
    have hj0 : ¬j = 0 := by omega
    simp only [hj0, if_false, mtch_lit_none anch ps hb, Option.map_none']

theorem mtch_lazy_step (anch : Bool) (ps : List Pat) (l : Str) {pre : Str}
    (suf : Str) (r : List Str) (hpre : pre.all notNL = true)
    (hcont : mtch anch ps suf = some r)
    (hno : ∀ j, j < pre.length →
      l.isPrefixOf ((pre ++ l ++ suf).drop j) = false) :
    mtch anch (.dotStarLazy :: .lit l :: ps) (pre ++ l ++ suf) = some r := by
  have hassoc : pre ++ l ++ suf = pre ++ (l ++ suf) := by simp
  rw [mtch_lazy_unfold]
  apply tryUpto_eq_of _ _ pre.length
  · have hdrop : (pre ++ l ++ suf).drop pre.length = l ++ suf := by
      rw [hassoc, List.drop_left]
    rw [hdrop, mtch_lit_step]
    exact hcont
  · intro j hj
    exact mtch_lit_none anch ps (hno j hj)
  · rw [hassoc, takeWhile_append_all _ hpre]
    simp

theorem mtch_plus_end (body : Str) (hne : body ≠ []) (hnl : body.all notNL = true) :
    mtch true [.dotPlusCap] body = some [body] := by
  have htw : body.takeWhile notNL = body := takeWhile_all_self hnl
  rw [mtch_plus_unfold, htw]
  apply tryFrom_eq_of _ _ body.length
  · have hlen : body.length ≠ 0 := by
      intro h; exact hne (List.length_eq_zero.mp h)
    simp only [hlen, if_false, List.drop_length, List.take_length, mtch_nil_unfold]
    simp
  · exact Nat.le_refl _
  · intro j hj hjm; omega

/-! ### Decimal rendering facts -/

theorem digitChar_isDigit (n : Nat) : (digitChar n).isDigit = true := by
  unfold digitChar
  split_ifs <;> decide

theorem natToDigitsAux_ne_nil : ∀ fuel n, n < fuel → natToDigitsAux fuel n ≠ [] := by
  intro fuel
  induction fuel with
  | zero => intro n h; omega
  | succ fuel ih =>
    intro n _
    by_cases h10 : n < 10
    · simp [natToDigitsAux, h10]
    · simp [natToDigitsAux, h10]

theorem natToDigitsAux_all_digits :
    ∀ fuel n, (natToDigitsAux fuel n).all Char.isDigit = true := by
  intro fuel
  induction fuel with
  | zero => intro n; simp [natToDigitsAux]
  | succ fuel ih =>
    intro n
    by_cases h10 : n < 10
    · simp [natToDigitsAux, h10, digitChar_isDigit]
    · simp [natToDigitsAux, h10, List.all_append, ih, digitChar_isDigit]

theorem natToDigits_ne_nil (n : Nat) : natToDigits n ≠ [] :=
  natToDigitsAux_ne_nil (n + 1) n (Nat.lt_succ_self n)

theorem natToDigits_all_digits (n : Nat) : (natToDigits n).all Char.isDigit = true :=
  natToDigitsAux_all_digits (n + 1) n

/-! ### The header round trip -/

theorem strL_colonNN (body : Str) : strL ":\n\n" ++ body = ':' :: '\n' :: '\n' :: body := rfl

theorem roundtrip_core (id : Nat) (url1 login url2 name time body : Str)
    (hlogin : login ≠ []) (hname : name ≠ []) (htime : time ≠ []) (hbody : body ≠ [])
    (hn1 : url1.all notNL = true) (hnlog : login.all notNL = true)
    (hn2 : url2.all notNL = true) (hnname : name.all notNL = true)
    (hntime : time.all notNL = true) (hnbody : body.all notNL = true)
    (hb2 : '|' ∉ url2) (hbn : '|' ∉ name) (hbt : '|' ∉ time)
    (hr1 : ']' ∉ url1) (hr2 : ']' ∉ url2) (hpt : ')' ∉ time) :
    mtch true jCommentPats
      (strL "Comment [(ID " ++
        (natToDigits id ++
          (strL ")|" ++
            (url1 ++ strL "] from GitHub user [" ++
              (login ++ strL "|" ++
                (url2 ++ strL "] (" ++
                  (name ++ strL ") at " ++ (time ++ strL ":\n\n" ++ body)))))))) =
      some [natToDigits id, login, name, time, body] := by
  -- shared takeWhile computations
  have twTail : (strL ":\n\n" ++ body).takeWhile notNL = [':'] := by
    rw [strL_colonNN]
    simp [List.takeWhile_cons, notNL]
  have twTime : (time ++ strL ":\n\n" ++ body).takeWhile notNL = time ++ [':'] := by
    rw [List.append_assoc, takeWhile_append_all _ hntime, twTail]
  -- group 5 (.+)$ on the body
  have S5 : mtch true [.dotPlusCap] body = some [body] := mtch_plus_end body hbody hnbody
  -- group 4 (.+) then literal ":\n\n"
  have S4 : mtch true [.dotPlusCap, .lit (strL ":\n\n"), .dotPlusCap]
      (time ++ strL ":\n\n" ++ body) = some [time, body] := by
    apply mtch_greedy_step _ _ _ _ _ htime hntime S5
    apply greedy_no_occ (c := ':') (strL "\n\n") body hntime (by decide)
    simp [List.takeWhile_cons, notNL, strL]
  -- group 3 (.+) then literal ") at "
  have S3 : mtch true
      [.dotPlusCap, .lit (strL ") at "), .dotPlusCap, .lit (strL ":\n\n"), .dotPlusCap]
      (name ++ strL ") at " ++ (time ++ strL ":\n\n" ++ body)) = some [name, time, body] := by
    apply mtch_greedy_step _ _ _ _ _ hname hnname S4
    apply greedy_no_occ (c := ')') (strL " at ") (time ++ strL ":\n\n" ++ body) hnname
      (by decide)
    have hassoc : strL " at " ++ (time ++ strL ":\n\n" ++ body) =
        strL " at " ++ (time ++ (strL ":\n\n" ++ body)) := by simp
    rw [hassoc, takeWhile_append_all _ (by decide), takeWhile_append_all _ hntime, twTail]
    simp only [List.mem_append, List.mem_singleton]
    rintro (h | h | h)
    · revert h; decide
    · exact hpt h
    · revert h; decide
  -- lazy .*? then literal "] (" over the user URL
  have S2b : mtch true
      (.dotStarLazy :: .lit (strL "] (") ::
        [.dotPlusCap, .lit (strL ") at "), .dotPlusCap, .lit (strL ":\n\n"), .dotPlusCap])
      (url2 ++ strL "] (" ++
        (name ++ strL ") at " ++ (time ++ strL ":\n\n" ++ body))) = some [name, time, body] := by
    apply mtch_lazy_step _ _ _ _ _ hn2 S3
    intro j hj
    have h := no_occ_before (c := ']') (strL " (")
      (strL "] (" ++ (name ++ strL ") at " ++ (time ++ strL ":\n\n" ++ body))) hr2 j hj
    rw [List.append_assoc]
    exact h
  -- group 2 (.+) then literal "|"
  have S2 : mtch true
      (.dotPlusCap :: .lit (strL "|") :: .dotStarLazy :: .lit (strL "] (") ::
        [.dotPlusCap, .lit (strL ") at "), .dotPlusCap, .lit (strL ":\n\n"), .dotPlusCap])
      (login ++ strL "|" ++
        (url2 ++ strL "] (" ++
          (name ++ strL ") at " ++ (time ++ strL ":\n\n" ++ body)))) =
      some [login, name, time, body] := by
    apply mtch_greedy_step _ _ _ _ _ hlogin hnlog S2b
    apply greedy_no_occ (c := '|') []
      (url2 ++ strL "] (" ++ (name ++ strL ") at " ++ (time ++ strL ":\n\n" ++ body)))
      hnlog (by decide)
    have hassoc : ([] : Str) ++
        (url2 ++ strL "] (" ++ (name ++ strL ") at " ++ (time ++ strL ":\n\n" ++ body))) =
        url2 ++ (strL "] (" ++ (name ++ (strL ") at " ++ (time ++ (strL ":\n\n" ++ body))))) := by
      simp
    rw [hassoc, takeWhile_append_all _ hn2, takeWhile_append_all _ (by decide),
      takeWhile_append_all _ hnname, takeWhile_append_all _ (by decide),
      takeWhile_append_all _ hntime, twTail]
    simp only [List.mem_append, List.mem_singleton]
    rintro (h | h | h | h | h | h)
    · exact hb2 h
    · revert h; decide
    · exact hbn h
    · revert h; decide
    · exact hbt h
    · revert h; decide
  -- lazy .*? then literal "] from GitHub user [" over the comment URL
  have S1b : mtch true
      (.dotStarLazy :: .lit (strL "] from GitHub user [") ::
        .dotPlusCap :: .lit (strL "|") :: .dotStarLazy :: .lit (strL "] (") ::
        [.dotPlusCap, .lit (strL ") at "), .dotPlusCap, .lit (strL ":\n\n"), .dotPlusCap])
      (url1 ++ strL "] from GitHub user [" ++
        (login ++ strL "|" ++
          (url2 ++ strL "] (" ++
            (name ++ strL ") at " ++ (time ++ strL ":\n\n" ++ body))))) =
      some [login, name, time, body] := by
    apply mtch_lazy_step _ _ _ _ _ hn1 S2
    intro j hj
    have h := no_occ_before (c := ']') (strL " from GitHub user [")
      (strL "] from GitHub user [" ++
        (login ++ strL "|" ++
          (url2 ++ strL "] (" ++
            (name ++ strL ") at " ++ (time ++ strL ":\n\n" ++ body))))) hr1 j hj
    rw [List.append_assoc]
    exact h
  -- the (\d+) group then the ")|" literal
  have S1a : mtch true
      (.digitsCap :: .lit (strL ")|") ::
        .dotStarLazy :: .lit (strL "] from GitHub user [") ::
        .dotPlusCap :: .lit (strL "|") :: .dotStarLazy :: .lit (strL "] (") ::
        [.dotPlusCap, .lit (strL ") at "), .dotPlusCap, .lit (strL ":\n\n"), .dotPlusCap])
      (natToDigits id ++
        (strL ")|" ++
          (url1 ++ strL "] from GitHub user [" ++
            (login ++ strL "|" ++
              (url2 ++ strL "] (" ++
                (name ++ strL ") at " ++ (time ++ strL ":\n\n" ++ body))))))) =
      some (natToDigits id :: [login, name, time, body]) := by
    apply mtch_digits_step _ _ _ _ (natToDigits_ne_nil id) (natToDigits_all_digits id)
    · have h : strL ")|" ++
          (url1 ++ strL "] from GitHub user [" ++
            (login ++ strL "|" ++
              (url2 ++ strL "] (" ++
                (name ++ strL ") at " ++ (time ++ strL ":\n\n" ++ body))))) =
          ')' :: ('|' ::
            (url1 ++ strL "] from GitHub user [" ++
              (login ++ strL "|" ++
                (url2 ++ strL "] (" ++
                  (name ++ strL ") at " ++ (time ++ strL ":\n\n" ++ body)))))) := rfl
      rw [h, List.takeWhile_cons]
      simp
    · rw [mtch_lit_step]
      exact S1b
  -- the leading literal
  rw [show jCommentPats =
      .lit (strL "Comment [(ID ") ::
        (.digitsCap :: .lit (strL ")|") ::
          .dotStarLazy :: .lit (strL "] from GitHub user [") ::
          .dotPlusCap :: .lit (strL "|") :: .dotStarLazy :: .lit (strL "] (") ::
          [.dotPlusCap, .lit (strL ") at "), .dotPlusCap, .lit (strL ":\n\n"), .dotPlusCap])
      from rfl]
  rw [mtch_lit_step]
  exact S1a

theorem formatCommentBody_eq (id : Nat) (url1 login url2 name time body : Str)
    (hname : name ≠ []) :
    formatCommentBody id url1 login url2 name time body =
      strL "Comment [(ID " ++
        (natToDigits id ++
          (strL ")|" ++
            (url1 ++ strL "] from GitHub user [" ++
              (login ++ strL "|" ++
                (url2 ++ strL "] (" ++
                  (name ++ strL ") at " ++ (time ++ strL ":\n\n" ++ body))))))) := by
  simp only [formatCommentBody, if_neg hname, List.append_assoc]
  rfl

/-! ### Scan lemmas for the two reconcilers -/

theorem scanTargets_found (ghID : Int) (j : JiraIssue) (post : List JiraIssue)
    (hj : j.ghid = .num ghID) :
    ∀ (pre : List JiraIssue),
      (∀ x ∈ pre, ∃ n : Int, x.ghid = .num n ∧ n ≠ ghID) →
      scanTargets ghID (pre ++ j :: post) = some j := by
  intro pre
  induction pre with
  | nil =>
    intro _
    simp [scanTargets, hj]
  | cons x rest ih =>
    intro hpre
    obtain ⟨n, hx, hne⟩ := hpre x (by simp)
    simp only [List.cons_append, scanTargets, hx]
    rw [if_neg hne]
    exact ih fun y hy => hpre y (by simp [hy])

theorem scanJComments_error (ghID : Nat) (j : JComment) (ds : Str)
    (hid : extractID j.body = some ds) (hbad : goAtoi ds = none) :
    ∀ (js1 : List JComment),
      (∀ x ∈ js1, extractID x.body = none ∨
        ∃ ds' n, extractID x.body = some ds' ∧ goAtoi ds' = some n ∧ ghID ≠ n) →
      ∀ js2, scanJComments ghID (js1 ++ j :: js2) = .error () := by
  intro js1
  induction js1 with
  | nil =>
    intro _ js2
    simp [scanJComments, hid, hbad]
  | cons x rest ih =>
    intro hskip js2
    rcases hskip x (by simp) with hx | ⟨ds', n, hx, hn, hne⟩
    · simp only [List.cons_append, scanJComments, hx]
      exact ih (fun y hy => hskip y (by simp [hy])) js2
    · simp only [List.cons_append, scanJComments, hx, hn]
      rw [if_neg hne]
      exact ih (fun y hy => hskip y (by simp [hy])) js2

/-! ### The label loop never reaches its `else` branch -/

theorem labelScan_false (lab : String) :
    ∀ (l : List String) (n i : Nat), i + l.length ≤ n →
      labelScan n lab i false l = false := by
  intro l
  induction l with
  | nil => intro n i _; simp [labelScan]
  | cons jl rest ih =>
    intro n i h
    have hi : i < n := by
      simp only [List.length_cons] at h
      omega
    simp only [labelScan]
    rw [if_pos ⟨hi, trivial⟩]
    by_cases he : lab = jl
    · simp [he]
    · rw [if_neg he]
      exact ih n (i + 1) (by simp only [List.length_cons] at h; omega)

theorem labelsPhase_eq (ghL jL : List String) :
    ∀ acc, labelsPhase acc ghL jL = acc := by
  unfold labelsPhase
  induction ghL with
  | nil => intro acc; rfl
  | cons lab rest ih =>
    intro acc
    have hstep : (if acc then acc else labelScan jL.length lab 0 false jL) = acc := by
      by_cases h : acc
      · simp [h]
      · simp only [Bool.not_eq_true] at h
        simp [h, labelScan_false lab jL jL.length 0 (by omega)]
    simp only [List.foldl_cons, hstep]
    exact ih acc

theorem didIssueChange_labels_irrelevant (gh : GhIssue) (j : JiraIssue) :
    didIssueChange gh j =
      ((gh.title != j.summary) ||
        ((gh.body != j.description) ||
          (match unknownsString j.status with
           | some f => gh.state != f
           | none => true)) ||
        (match unknownsString j.reporter with
         | some f => gh.login != f
         | none => true)) := by
  unfold didIssueChange
  by_cases h : gh.labels.length > 0
  · simp only [h, if_true, labelsPhase_eq]
    ac_rfl
  · simp only [h, if_false]
    ac_rfl

/-! ### Claim theorems -/

/-- Fixture for claim C1: a source issue with ID 1. -/
def ghFixC1 : GhIssue := ⟨1, 1, "T", "B", "open", "alice", []⟩

/-- Fixture for claim C1: a target issue whose GitHub-ID field is absent. -/
def jFixC1a : JiraIssue := ⟨"P-1", "T", "B", .absent, .str "open", .str "alice", .absent⟩

/-- Fixture for claim C1: the unique target whose GitHub-ID field numerically
equals the source's ID. -/
def jFixC1b : JiraIssue := ⟨"P-2", "T", "B", .num 1, .str "open", .str "alice", .absent⟩

/-- Claim C1, counterexample: the target list holds exactly one issue whose
GitHub-ID custom field numerically equals the source issue's ID (in the
spec's float/string-tolerant sense), yet `Compare` takes the create path for
the source issue: a target whose GitHub-ID field is absent (or otherwise not
a `float64`) `break`s the scan instead of continuing it, so the matching
target that follows is never examined. -/
theorem c1_counterexample :
    (([jFixC1a, jFixC1b].filter fun j => specGitHubIDNumEq j.ghid ghFixC1.id).length = 1) ∧
    issueClassify [ghFixC1] [jFixC1a, jFixC1b] = [.create ghFixC1] := by
  decide

/-- Claim C1 (amended): for every source issue, if some target issue stores
the source's ID as a `float64` GitHub-ID field and every *earlier* target in
the list also stores a `float64` GitHub-ID (necessarily different from the
source's ID), then `Compare` classifies the pair as an update, pairing the
source with the first such matching target.  A target with an absent or
non-float64 GitHub-ID field stops the scan and routes the source issue to
the create path; string-encoded IDs never match. -/
theorem c1_update_on_float_match (gh : GhIssue) (pre post : List JiraIssue)
    (j : JiraIssue)
    (hpre : ∀ x ∈ pre, ∃ n : Int, x.ghid = .num n ∧ n ≠ gh.id)
    (hj : j.ghid = .num gh.id) :
    classifyIssue (pre ++ j :: post) gh = .update gh j := by
  have hscan := scanTargets_found gh.id j post hj pre hpre
  simp [classifyIssue, hscan]

/-- Witness for the amended claim C1 at a concrete input. -/
theorem c1_update_on_float_match_witness :
    ((∀ x ∈ [jFixC1b], ∃ n : Int, x.ghid = .num n ∧ n ≠ (2 : Int)) ∧
      (⟨"P-3", "T", "B", .num 2, .str "open", .str "bob", .absent⟩ : JiraIssue).ghid =
        .num (2 : Int)) ∧
    classifyIssue [jFixC1b, ⟨"P-3", "T", "B", .num 2, .str "open", .str "bob", .absent⟩]
        ⟨2, 2, "T", "B", "open", "bob", []⟩ =
      .update ⟨2, 2, "T", "B", "open", "bob", []⟩
        ⟨"P-3", "T", "B", .num 2, .str "open", .str "bob", .absent⟩ := by
  refine ⟨⟨?_, rfl⟩, ?_⟩
  · intro x hx
    simp only [List.mem_singleton] at hx
    subst hx
    exact ⟨1, rfl, by decide⟩
  · exact c1_update_on_float_match ⟨2, 2, "T", "B", "open", "bob", []⟩
      [jFixC1b] [] ⟨"P-3", "T", "B", .num 2, .str "open", .str "bob", .absent⟩
      (by
        intro x hx
        simp only [List.mem_singleton] at hx
        subst hx
        exact ⟨1, rfl, by decide⟩)
      rfl

/-- Fixture for claim C3: a source issue with one label. -/
def ghFixC3 : GhIssue := ⟨1, 1, "T", "B", "open", "alice", ["x"]⟩

/-- Fixture for claim C3: a target issue equal in title, body, status and
reporter, with an empty label array. -/
def jFixC3 : JiraIssue := ⟨"P-1", "T", "B", .num 1, .str "open", .str "alice", .strList []⟩

/-- Claim C3, counterexample: the source has a label with no equal target
counterpart (the target label array is empty), the four scalar comparisons
all agree, and `DidIssueChange` still returns `false` — so the claimed
"if and only if" fails: label inequality does not force the result true. -/
theorem c3_counterexample :
    didIssueChange ghFixC3 jFixC3 = false ∧
    ghFixC3.labels ≠ [] ∧
    ghFixC3.labels.map hyphenNormalize ≠ jiraLabelsOf jFixC3.labelsF := by
  decide

/-- Claim C3 (amended): `DidIssueChange` returns `false` iff the source
title equals the target summary, the source body equals the target
description, the status custom field reads as a string equal to the source
state, and the reporter custom field reads as a string equal to the source
reporter login.  Labels play no role in the result (the label loop's
changed branch is unreachable), and making any single one of the four
tracked comparisons differ flips the result to `true` independently of the
others. -/
theorem c3_change_iff (gh : GhIssue) (j : JiraIssue) :
    didIssueChange gh j = false ↔
      (gh.title = j.summary ∧ gh.body = j.description ∧
        unknownsString j.status = some gh.state ∧
        unknownsString j.reporter = some gh.login) := by
  rw [didIssueChange_labels_irrelevant]
  cases hs : unknownsString j.status with
  | none => simp [hs]
  | some f =>
    cases hr : unknownsString j.reporter with
    | none => simp [hr]
    | some g =>
      simp only [Bool.or_eq_false_iff, bne_eq_false_iff_eq]
      constructor
      · rintro ⟨⟨h1, h2⟩, h3⟩
        exact ⟨h1, h2.1, by rw [h2.2], by rw [h3]⟩
      · rintro ⟨h1, h2, h3, h4⟩
        injection h3 with h3
        injection h4 with h4
        exact ⟨⟨h1, h2, h3.symm⟩, h4.symm⟩

/-- Claim C9: a source issue with an empty label list never triggers an
update on account of labels — when title, body, status field and reporter
field agree, `DidIssueChange` is `false` whatever the target's label field
holds. -/
theorem c9_empty_labels (gh : GhIssue) (j : JiraIssue)
    (hlab : gh.labels = [])
    (ht : gh.title = j.summary) (hb : gh.body = j.description)
    (hs : unknownsString j.status = some gh.state)
    (hr : unknownsString j.reporter = some gh.login) :
    didIssueChange gh j = false := by
  unfold didIssueChange
  simp [hlab, ht, hb, hs, hr]

/-- Witness for claim C9: the target carries a label the source lacks. -/
theorem c9_empty_labels_witness :
    ((⟨3, 3, "T9", "B9", "open", "carol", []⟩ : GhIssue).labels = [] ∧
      unknownsString (FieldValue.str "open") = some "open" ∧
      unknownsString (FieldValue.str "carol") = some "carol") ∧
    didIssueChange ⟨3, 3, "T9", "B9", "open", "carol", []⟩
      ⟨"P-9", "T9", "B9", .num 3, .str "open", .str "carol", .strList ["only-on-jira"]⟩ =
      false :=
  ⟨⟨rfl, rfl, rfl⟩,
    c9_empty_labels ⟨3, 3, "T9", "B9", "open", "carol", []⟩
      ⟨"P-9", "T9", "B9", .num 3, .str "open", .str "carol", .strList ["only-on-jira"]⟩
      rfl rfl rfl rfl rfl⟩

/-- Claim C10: whenever the four scalar comparisons agree, `DidIssueChange`
is `false` regardless of the source label list and the target label array:
the inner label loop's `else` branch (the only assignment to the changed
flag in the label phase) is unreachable because the range index is always
below the length, so label differences alone never make the result true. -/
theorem c10_labels_unreachable :
    (∀ (lab : String) (l : List String), labelScan l.length lab 0 false l = false) ∧
    (∀ (gh : GhIssue) (j : JiraIssue),
      gh.title = j.summary → gh.body = j.description →
      unknownsString j.status = some gh.state →
      unknownsString j.reporter = some gh.login →
      didIssueChange gh j = false) := by
  constructor
  · intro lab l
    exact labelScan_false lab l l.length 0 (by omega)
  · intro gh j ht hb hs hr
    rw [didIssueChange_labels_irrelevant, hs, hr]
    simp [ht, hb]

/-- Witness for claim C10: mismatched labels on both sides, four scalar
fields equal, result `false`. -/
theorem c10_labels_unreachable_witness :
    labelScan (["p", "q"] : List String).length "z" 0 false ["p", "q"] = false ∧
    (didIssueChange ⟨4, 4, "Ta", "Ba", "closed", "dave", ["gh-only", "shared"]⟩
      ⟨"P-10", "Ta", "Ba", .num 4, .str "closed", .str "dave", .strList ["jira-only"]⟩ =
      false) :=
  ⟨c10_labels_unreachable.1 "z" ["p", "q"],
    c10_labels_unreachable.2 ⟨4, 4, "Ta", "Ba", "closed", "dave", ["gh-only", "shared"]⟩
      ⟨"P-10", "Ta", "Ba", .num 4, .str "closed", .str "dave", .strList ["jira-only"]⟩
      rfl rfl rfl rfl⟩

/-- Claim C2, counterexample: a source comment whose author has an empty
display name (the header omits the parenthetical, which the claim treats as
optional).  Formatting the header and then running the full decomposition
fails (`nil` match), so the round trip does not even succeed, let alone
recover the fields. -/
theorem c2_counterexample :
    extractFields
      (createCommentBody 7 (strL "u") (strL "bob") (strL "u") [] (strL "t")
        (strL "hello")) = none := by
  decide

/-- Claim C2 (amended): the round trip holds for source comments whose
display name is non-empty, whose login, display name, timestamp and body
are non-empty and newline-free, whose URLs are newline-free and contain no
`]` or `|`, whose display name and timestamp contain no `|`, whose
timestamp contains no `)` (the fixed `15:04 PM, January 2 2006` format
satisfies all of these), and whose formatted body does not exceed the
truncation limit: formatting the header for creation and then running
`ExtractFields` on the result succeeds and recovers the source comment ID,
login, and body exactly (and the display name and timestamp besides). -/
theorem c2_roundtrip (id : Nat) (url1 login url2 name time body : Str)
    (hlogin : login ≠ []) (hname : name ≠ []) (htime : time ≠ []) (hbody : body ≠ [])
    (hn1 : url1.all notNL = true) (hnlog : login.all notNL = true)
    (hn2 : url2.all notNL = true) (hnname : name.all notNL = true)
    (hntime : time.all notNL = true) (hnbody : body.all notNL = true)
    (hb2 : '|' ∉ url2) (hbn : '|' ∉ name) (hbt : '|' ∉ time)
    (hr1 : ']' ∉ url1) (hr2 : ']' ∉ url2) (hpt : ')' ∉ time)
    (hlen : (formatCommentBody id url1 login url2 name time body).length ≤ maxBodyLength) :
    extractFields (createCommentBody id url1 login url2 name time body) =
      some (natToDigits id, login, name, time, body) := by
  have hcore := roundtrip_core id url1 login url2 name time body hlogin hname htime hbody
    hn1 hnlog hn2 hnname hntime hnbody hb2 hbn hbt hr1 hr2 hpt
  have hfmt := formatCommentBody_eq id url1 login url2 name time body hname
  have hnotgt : ¬(formatCommentBody id url1 login url2 name time body).length >
      maxBodyLength := Nat.not_lt.mpr hlen
  simp only [createCommentBody]
  rw [if_neg hnotgt, hfmt]
  unfold extractFields
  rw [hcore]

/-- Witness for the amended claim C2 at a concrete comment. -/
theorem c2_roundtrip_witness :
    ((strL "b" : Str) ≠ [] ∧ (strL "B" : Str) ≠ [] ∧ (strL "t" : Str) ≠ [] ∧
      (strL "x" : Str) ≠ [] ∧
      (formatCommentBody 5 (strL "u") (strL "b") (strL "v") (strL "B") (strL "t")
        (strL "x")).length ≤ maxBodyLength) ∧
    extractFields
      (createCommentBody 5 (strL "u") (strL "b") (strL "v") (strL "B") (strL "t")
        (strL "x")) =
      some (natToDigits 5, strL "b", strL "B", strL "t", strL "x") :=
  ⟨by decide,
    c2_roundtrip 5 (strL "u") (strL "b") (strL "v") (strL "B") (strL "t") (strL "x")
      (by decide) (by decide) (by decide) (by decide) (by decide) (by decide)
      (by decide) (by decide) (by decide) (by decide) (by decide) (by decide)
      (by decide) (by decide) (by decide) (by decide) (by decide)⟩

/-- Fixture for claim C4: a Jira comment body that passes the quick
ID-extraction check with the matching ID but omits the display-name
parenthetical, so the full header grammar does not match. -/
def jBodyFixC4 : Str :=
  strL "Comment [(ID 484163403)|u] from GitHub user [bob|u] at 12:00, Jan 1 2020:\n\nhello"

/-- Claim C4: on a body that passes the ID-prefix check with an ID equal to
the source comment's (so `Compare` pairs the two for update) but fails the
full header grammar, `UpdateComment`'s unguarded `fields[5]` access runs on
a `nil` match result — a panic, not a returned error. -/
theorem c4_update_panics :
    extractID jBodyFixC4 = some (strL "484163403") ∧
    commentsCompare [⟨484163403, strL "hello"⟩] [⟨"1", jBodyFixC4⟩] =
      .ok ⟨[], [(⟨484163403, strL "hello"⟩, ⟨"1", jBodyFixC4⟩)]⟩ ∧
    extractFields jBodyFixC4 = none ∧
    updateComment (strL "hello") jBodyFixC4 = .panic := by
  decide

/-- Claim C5: for a matched pair whose target body satisfies the full
header grammar, if the decomposed original-body capture equals the source
comment's current body, `UpdateComment` performs no write — it returns
without calling the target comment store. -/
theorem c5_update_noop (ghBody jBody i l n t b : Str)
    (hex : extractFields jBody = some (i, l, n, t, b)) (heq : b = ghBody) :
    updateComment ghBody jBody = .noop := by
  simp [updateComment, hex, heq]

/-- Witness for claim C5 on the spec's end-to-end scenario 3 comment. -/
theorem c5_update_noop_witness :
    extractFields
      (strL "Comment [(ID 484163403)|u] from GitHub user [bob|u] (Bob) at 12:00, Jan 1 2020:\n\nhello") =
      some (strL "484163403", strL "bob", strL "Bob", strL "12:00, Jan 1 2020",
        strL "hello") ∧
    updateComment (strL "hello")
      (strL "Comment [(ID 484163403)|u] from GitHub user [bob|u] (Bob) at 12:00, Jan 1 2020:\n\nhello") =
      .noop :=
  ⟨by decide,
    c5_update_noop (strL "hello")
      (strL "Comment [(ID 484163403)|u] from GitHub user [bob|u] (Bob) at 12:00, Jan 1 2020:\n\nhello")
      (strL "484163403") (strL "bob") (strL "Bob") (strL "12:00, Jan 1 2020")
      (strL "hello") (by decide) rfl⟩

/-- Claim C6: whenever a Jira comment body is ID-shaped but its captured
digit string fails integer conversion, the comment reconciliation pass for
the issue returns an error — the whole pass aborts rather than skipping the
comment or treating it as unmatched. -/
theorem c6_conversion_error (gh : GhComment) (ghs : List GhComment)
    (js1 js2 : List JComment) (j : JComment) (ds : Str)
    (hskip : ∀ x ∈ js1, extractID x.body = none ∨
      ∃ ds' n, extractID x.body = some ds' ∧ goAtoi ds' = some n ∧ gh.id ≠ n)
    (hid : extractID j.body = some ds) (hbad : goAtoi ds = none) :
    commentsCompare (gh :: ghs) (js1 ++ j :: js2) = .error () := by
  have hscan := scanJComments_error gh.id j ds hid hbad js1 hskip js2
  simp [commentsCompare, hscan]

/-- Fixture for claim C6: an ID-shaped body whose 20-digit ID overflows a
64-bit integer. -/
def jBodyFixC6 : Str := strL "Comment [(ID 99999999999999999999)|u] overflow"

/-- Witness for claim C6 at a concrete overflowing comment ID. -/
theorem c6_conversion_error_witness :
    ((∀ x ∈ ([⟨"9", strL "plain comment"⟩] : List JComment), extractID x.body = none) ∧
      extractID jBodyFixC6 = some (strL "99999999999999999999") ∧
      goAtoi (strL "99999999999999999999") = none) ∧
    commentsCompare [⟨1, strL "x"⟩]
      ([⟨"9", strL "plain comment"⟩] ++ ⟨"7", jBodyFixC6⟩ :: []) = .error () :=
  ⟨⟨by decide, by decide, by decide⟩,
    c6_conversion_error ⟨1, strL "x"⟩ [] [⟨"9", strL "plain comment"⟩] []
      ⟨"7", jBodyFixC6⟩ (strL "99999999999999999999")
      (by
        intro x hx
        simp only [List.mem_singleton] at hx
        subst hx
        exact Or.inl (by decide))
      (by decide) (by decide)⟩

/-- Claim C7: the code's `maxBodyLength` is `1 << 15 = 32768`, although its
own comment (and the spec) state the Jira ceiling `2^15 - 1 = 32767`: a
formatted comment body of exactly 32768 characters is not truncated at all
and exceeds the documented ceiling. -/
theorem c7_length_off_by_one :
    (createCommentBody 1 (strL "u") (strL "bob") (strL "u") (strL "Bob") (strL "t")
        (List.replicate 32711 'a')).length = 32768 ∧
    maxBodyLength = 32768 ∧ 32768 > 32767 := by
  refine ⟨?_, by decide, by decide⟩
  have hname : (strL "Bob" : Str) ≠ [] := by decide
  have hfl : (formatCommentBody 1 (strL "u") (strL "bob") (strL "u") (strL "Bob")
      (strL "t") (List.replicate 32711 'a')).length = 32768 := by
    rw [formatCommentBody_eq _ _ _ _ _ _ _ hname]
    simp only [List.length_append, List.length_replicate]
    norm_num [strL, natToDigits, natToDigitsAux, digitChar]
  have hcond : ¬(formatCommentBody 1 (strL "u") (strL "bob") (strL "u") (strL "Bob")
      (strL "t") (List.replicate 32711 'a')).length > maxBodyLength := by
    rw [hfl]; decide
  simp only [createCommentBody]
  rw [if_neg hcond]
  exact hfl

/-- Claim C8: once both listings have succeeded, per-issue create/update
(and their embedded fetch/comment-pass) failures are logged and the loop
continues: `Compare` processes every source issue exactly once and returns
success whatever the per-issue outcomes are. -/
theorem c8_no_issue_aborts_batch (or : IssueSyncOracle) (ghs : List GhIssue)
    (listJira : List Int → Except Unit (List JiraIssue)) (js : List JiraIssue)
    (hjs : listJira (ghs.map (·.id)) = .ok js) :
    issueCompare or (.ok ghs) listJira = .ok (ghs.map (processOne or js)) ∧
    (ghs.map (processOne or js)).length = ghs.length := by
  refine ⟨?_, by simp⟩
  unfold issueCompare
  by_cases h : ghs.isEmpty
  · have hnil : ghs = [] := List.isEmpty_iff.mp h
    subst hnil
    simp
  · simp [h, hjs]

/-- Witness for claim C8: an oracle on which every create and every update
fails; both issues are still processed and the pass succeeds. -/
theorem c8_no_issue_aborts_batch_witness :
    ((fun _ => Except.ok [jFixC1b] :
        List Int → Except Unit (List JiraIssue))
      (([ghFixC1, ⟨2, 2, "U", "C", "open", "bob", []⟩] : List GhIssue).map (·.id)) =
        .ok [jFixC1b]) ∧
    issueCompare ⟨fun _ _ => true, fun _ => true⟩
        (.ok [ghFixC1, ⟨2, 2, "U", "C", "open", "bob", []⟩])
        (fun _ => Except.ok [jFixC1b]) =
      .ok [.updated ghFixC1 jFixC1b true,
        .created ⟨2, 2, "U", "C", "open", "bob", []⟩ true] ∧
    ([ghFixC1, ⟨2, 2, "U", "C", "open", "bob", []⟩].map
        (processOne ⟨fun _ _ => true, fun _ => true⟩ [jFixC1b])).length = 2 := by
  refine ⟨rfl, ?_, ?_⟩
  · have h := (c8_no_issue_aborts_batch ⟨fun _ _ => true, fun _ => true⟩
      [ghFixC1, ⟨2, 2, "U", "C", "open", "bob", []⟩] (fun _ => Except.ok [jFixC1b])
      [jFixC1b] rfl).1
    rw [h]
    rfl
  · have h := (c8_no_issue_aborts_batch ⟨fun _ _ => true, fun _ => true⟩
      [ghFixC1, ⟨2, 2, "U", "C", "open", "bob", []⟩] (fun _ => Except.ok [jFixC1b])
      [jFixC1b] rfl).2
    rw [h]
    rfl

end Sync
